import Mathlib

/-!
Shallow embedding of the big-file-uploader demo (Express server `server/index.js`
and the client `BigFileUploader` chunk scheduler), together with proofs about
the upload-session protocol: init / receive-chunk / progress / merge / cancel
on the server side, and the bounded-concurrency pause/resume scheduler on the
client side.

Server state is modelled explicitly: the in-memory `uploadStatus` registry is an
association list keyed by upload id, the staging area (`temp/<uploadId>/<i>.part`)
is an association list keyed by `(uploadId, index)`, the set of existing staging
directories is a list of ids, and the archive directory (`uploads/`) is an
association list from file name to bytes.  JavaScript numbers that can become
NaN or Infinity (`Math.ceil(fileSize / chunkSize)`, the progress percentage)
are modelled by an explicit sum type `JSNum` over exact integers.
-/

/-- Bytes of a file or chunk, modelled as a list of byte values. -/
abbrev Bytes := List Nat

/-! ### Association-list primitives (JS object / directory model) -/

/-- Lookup in an association list (first binding wins, as in a JS object where
updates replace the existing key). -/
def assocLookup {α β : Type} [DecidableEq α] : List (α × β) → α → Option β
  | [], _ => none
  | (k, v) :: rest, a => if k = a then some v else assocLookup rest a

/-- Insert-or-replace in an association list, mirroring `obj[k] = v`. -/
def assocUpdate {α β : Type} [DecidableEq α] : List (α × β) → α → β → List (α × β)
  | [], a, b => [(a, b)]
  | (k, v) :: rest, a, b =>
    if k = a then (a, b) :: rest else (k, v) :: assocUpdate rest a b

/-- Remove a key from an association list, mirroring `delete obj[k]`. -/
def assocRemove {α β : Type} [DecidableEq α] : List (α × β) → α → List (α × β)
  | [], _ => []
  | (k, v) :: rest, a =>
    if k = a then assocRemove rest a else (k, v) :: assocRemove rest a

theorem assocLookup_update_self {α β : Type} [DecidableEq α]
    (l : List (α × β)) (a : α) (b : β) :
    assocLookup (assocUpdate l a b) a = some b := by
  induction l with
  | nil => simp [assocUpdate, assocLookup]
  | cons kv rest ih =>
    obtain ⟨k, v⟩ := kv
    by_cases h : k = a
    · simp [assocUpdate, assocLookup, h]
    · simp [assocUpdate, assocLookup, h, ih]

theorem assocLookup_update_ne {α β : Type} [DecidableEq α]
    (l : List (α × β)) (a a' : α) (b : β) (h : a ≠ a') :
    assocLookup (assocUpdate l a b) a' = assocLookup l a' := by
  induction l with
  | nil => simp [assocUpdate, assocLookup, h]
  | cons kv rest ih =>
    obtain ⟨k, v⟩ := kv
    by_cases hk : k = a
    · subst hk
      simp [assocUpdate, assocLookup, h]
    · simp [assocUpdate, assocLookup, hk, ih]

theorem assocLookup_remove_self {α β : Type} [DecidableEq α]
    (l : List (α × β)) (a : α) :
    assocLookup (assocRemove l a) a = none := by
  induction l with
  | nil => simp [assocRemove, assocLookup]
  | cons kv rest ih =>
    obtain ⟨k, v⟩ := kv
    by_cases hk : k = a
    · simp [assocRemove, hk, ih]
    · simp [assocRemove, assocLookup, hk, ih]

theorem assocLookup_remove_ne {α β : Type} [DecidableEq α]
    (l : List (α × β)) (a a' : α) (h : a ≠ a') :
    assocLookup (assocRemove l a) a' = assocLookup l a' := by
  induction l with
  | nil => simp [assocRemove, assocLookup]
  | cons kv rest ih =>
    obtain ⟨k, v⟩ := kv
    by_cases hk : k = a
    · subst hk
      simp [assocRemove, assocLookup, h, ih]
    · simp [assocRemove, assocLookup, hk, ih]

/-! ### JavaScript number model

Every JS number the server stores or branches on in this program is either an
integer (exactly representable as a double), NaN, or an infinity: `totalChunks`
is `Math.ceil(fileSize / chunkSize)` and the progress percentage is
`Math.round` of a ratio.  We therefore model JS numbers as an explicit sum
type over ℤ and fold each arithmetic expression of the source (a division
followed by `Math.ceil` or `Math.round`) into one exact integer computation. -/

/-- A JavaScript number as it appears in this program: NaN, an infinity, or an
exact integer value. -/
inductive JSNum : Type where
  | nan : JSNum
  | inf : JSNum
  | ninf : JSNum
  | val (n : ℤ) : JSNum
deriving DecidableEq

/-- JS `Math.ceil(a / b)` for integers `a`, `b`, including the zero-divisor
behaviour of JS division: `0/0 = NaN`, `x/0 = ±Infinity` (and `Math.ceil`
fixes NaN and the infinities).  For `b ≠ 0` the exact ceiling
`⌈a/b⌉ = -⌊-a/b⌋` is computed with floor division `Int.fdiv`. -/
def jsCeilDiv (a b : ℤ) : JSNum :=
  if b = 0 then
    if a = 0 then .nan else if 0 < a then .inf else .ninf
  else .val (-(Int.fdiv (-a) b))

/-- Round `p / q` (for `q ≠ 0`) half toward positive infinity, as JS
`Math.round` does: `⌊p/q + 1/2⌋ = ⌊(2p+q)/(2q)⌋`, computed with floor
division. -/
def roundHalfUp (p q : ℤ) : ℤ :=
  Int.fdiv (2 * p + q) (2 * q)

/-- JS `Math.round((len / total) * 100)` where `len` is a nonnegative integer
(an array length) and `total` is a JS number: NaN stays NaN, a division by
`total = 0` produces NaN (for `len = 0`) or ±Infinity, division by an infinite
`total` produces 0, and otherwise the exact rational `100*len/total` is
rounded half-up. -/
def jsProgress (len : ℤ) : JSNum → JSNum
  | .nan => .nan
  | .inf => .val 0
  | .ninf => .val 0
  | .val t =>
    if t = 0 then
      if len = 0 then .nan else if 0 < len then .inf else .ninf
    else .val (roundHalfUp (100 * len) t)

/-- Iteration space of `for (let i = 0; i < t; i++)` over a JS number bound
`t`: `none` when the loop never terminates (`t = Infinity`), otherwise the
list of integer loop indices (empty for NaN and nonpositive bounds, since
`0 < NaN` is already false in JS). -/
def jsLoopRange : JSNum → Option (List ℤ)
  | .nan => some []
  | .ninf => some []
  | .inf => none
  | .val n => some ((List.range n.toNat).map Int.ofNat)

/-- JS `String.prototype.startsWith`, computed on the character lists. -/
def jsStartsWith (s pre : String) : Bool :=
  pre.toList.isPrefixOf s.toList

/-- Node `path.extname` restricted to plain file names: the suffix starting at
the last dot, or the empty string when there is no dot or the only dot is the
leading character. -/
def extSuffix : List Char → Option (List Char)
  | [] => none
  | c :: rest =>
    match extSuffix rest with
    | some e => some e
    | none => if c = '.' then some (c :: rest) else none

/-- JS `path.extname` on a bare file name. -/
def jsExtname (s : String) : String :=
  match s.toList with
  | [] => ""
  | _ :: rest =>
    match extSuffix rest with
    | some e => String.mk e
    | none => ""

/-! ### Server data model

The Express server of `server/index.js` (the variant with request-cancel
cleanup).  One modelling note: the `chunk` route names the staged file with
the raw `chunkIndex` request field and records `parseInt(chunkIndex)` in
memory; we assume canonical decimal indices (which is what the client sends,
`formData.append('chunkIndex', chunk.index)` with a number), so both are the
same integer. -/

/-- One entry of the `uploadStatus` registry, created by the init route. -/
structure UploadSession : Type where
  fileName : String
  fileSize : ℤ
  chunkSize : ℤ
  fileHash : String
  totalChunks : JSNum
  uploadedChunks : List ℤ
deriving DecidableEq

/-- The server's whole observable state: the in-memory `uploadStatus` object,
the set of per-session staging directories under `temp/`, the staged chunk
files `temp/<uploadId>/<i>.part`, and the archive directory `uploads/`
(file name to content). -/
structure ServerState : Type where
  uploadStatus : List (String × UploadSession)
  tempDirs : List String
  tempFS : List ((String × ℤ) × Bytes)
  uploadDir : List (String × Bytes)
deriving DecidableEq

/-- Fresh server right after startup: empty registry, no staging dirs, no
staged chunks, empty archive directory. -/
def emptyServerState : ServerState :=
  { uploadStatus := [], tempDirs := [], tempFS := [], uploadDir := [] }

/-- Result of the init route. -/
inductive InitResult : Type where
  | dedupHit (filePath : String) : InitResult
  | created (uploadId : String) : InitResult
deriving DecidableEq

/-- Result of the chunk route.  `error500` is the catch branch (the move of
the uploaded part into the staging area failed). -/
inductive ReceiveResult : Type where
  | notFound : ReceiveResult
  | ok : ReceiveResult
  | error500 : ReceiveResult
deriving DecidableEq

/-- Result of the merge route: 404 unknown session, 400 with the missing
index list, 200 with the final file name, or 500 when `mergeChunks`
rejected. -/
inductive MergeResult : Type where
  | notFound : MergeResult
  | incomplete (missingFiles : List ℤ) : MergeResult
  | merged (filePath : String) : MergeResult
  | failed : MergeResult
deriving DecidableEq

/-- Result of the progress route. -/
inductive ProgressResult : Type where
  | notFound : ProgressResult
  | ok (progress : JSNum) (uploadedChunks : List ℤ) (totalChunks : JSNum)
      (missingChunks : List ℤ) : ProgressResult
deriving DecidableEq

/-- The `checkFileExists` helper: scan `uploads/` and return the first file
name that starts with the given hash, if any. -/
def checkFileExists (st : ServerState) (fileHash : String) : Option String :=
  (st.uploadDir.find? fun kv => jsStartsWith kv.1 fileHash).map (·.1)

/-- Ensure a directory entry is present (`ensureDir` / `fs.mkdirSync` with
`recursive`); the temp and upload roots themselves are always present in the
model. -/
def ensureTempDir (dirs : List String) (uid : String) : List String :=
  if dirs.contains uid then dirs else dirs ++ [uid]

/-- The init route `POST /api/upload/init`: dedup lookup by content hash
first (returning the existing archive path and leaving the state untouched
on a hit), otherwise create the staging directory and register a fresh
session with `totalChunks = Math.ceil(fileSize / chunkSize)` and an empty
`uploadedChunks` list.  There is no validation of `fileSize` or `chunkSize`.
The fresh uuid is passed in as `newId`. -/
def initUpload (st : ServerState) (newId fileName : String)
    (fileSize chunkSize : ℤ) (fileHash : String) : InitResult × ServerState :=
  match checkFileExists st fileHash with
  | some p => (.dedupHit p, st)
  | none =>
    let s : UploadSession :=
      { fileName := fileName, fileSize := fileSize, chunkSize := chunkSize,
        fileHash := fileHash,
        totalChunks := jsCeilDiv fileSize chunkSize,
        uploadedChunks := [] }
    (.created newId,
      { st with
          tempDirs := ensureTempDir st.tempDirs newId,
          uploadStatus := assocUpdate st.uploadStatus newId s })

/-- The `handleRequestCancel` function: delete the in-flight multer temp file
(not tracked in this model, it never reaches the staging map), and when the
upload id has a registered session, remove the session's whole staging
directory (all its staged chunks) and delete the registry entry. -/
def handleRequestCancel (st : ServerState) (uid : String) : ServerState :=
  match assocLookup st.uploadStatus uid with
  | none => st
  | some _ =>
    { st with
        tempDirs := st.tempDirs.erase uid,
        tempFS := st.tempFS.filter fun kv => decide (kv.1.1 ≠ uid),
        uploadStatus := assocRemove st.uploadStatus uid }

/-- The chunk route `POST /api/upload/chunk`: 404 for an unknown session;
otherwise move the received part to `temp/<uploadId>/<index>.part`
(overwriting any previous copy) and push the index onto
`uploadedChunks` unless already present.  When the move fails (the staging
directory is gone), the catch branch calls `handleRequestCancel` and answers
500.  There is no check that the index lies in `[0, totalChunks)`. -/
def receiveChunk (st : ServerState) (uid : String) (idx : ℤ) (b : Bytes) :
    ReceiveResult × ServerState :=
  match assocLookup st.uploadStatus uid with
  | none => (.notFound, st)
  | some s =>
    if st.tempDirs.contains uid then
      let s' : UploadSession :=
        { s with
            uploadedChunks :=
              if s.uploadedChunks.contains idx then s.uploadedChunks
              else s.uploadedChunks ++ [idx] }
      (.ok,
        { st with
            tempFS := assocUpdate st.tempFS (uid, idx) b,
            uploadStatus := assocUpdate st.uploadStatus uid s' })
    else
      (.error500, handleRequestCancel st uid)

/-- The progress route `GET /api/upload/progress`: 404 for an unknown
session; otherwise report `Math.round((uploadedChunks.length / totalChunks)
* 100)`, the raw uploaded list, and the missing indices
(`for (i = 0; i < totalChunks; i++)` filtered by set membership).  `none`
models the route never answering because the loop diverges
(`totalChunks = Infinity`). -/
def getProgress (st : ServerState) (uid : String) : Option ProgressResult :=
  match assocLookup st.uploadStatus uid with
  | none => some .notFound
  | some s =>
    match jsLoopRange s.totalChunks with
    | none => none
    | some idxs =>
      some (.ok (jsProgress s.uploadedChunks.length s.totalChunks)
        s.uploadedChunks s.totalChunks
        (idxs.filter fun i => !s.uploadedChunks.contains i))

/-- The streaming concatenation performed by a successful `mergeChunks` run:
`writeNextChunk` fully drains chunk 0, then chunk 1, …, then chunk
`totalChunks - 1` into the output, so the output bytes are the concatenation
of the staged chunk files in index order.  (`getD []` is only evaluated at
indices the caller has verified to be present.) -/
def mergeChunksBytes (st : ServerState) (uid : String) (idxs : List ℤ) : Bytes :=
  (idxs.map fun i => (assocLookup st.tempFS (uid, i)).getD []).flatten

/-- The merge route `POST /api/upload/merge`, successful-stream case: 404 for
an unknown session; otherwise `ensureDir` the roots and the session staging
directory, recompute the missing indices from the staging area on disk
(`fs.existsSync`, not the in-memory `uploadedChunks`), answer 400 with that
list if nonempty; otherwise run `mergeChunks` into
`uploads/<fileHash><extname(fileName)>`, then remove the staging directory
and the registry entry and answer with the final file name.  `none` models
the route hanging because the verification loop diverges
(`totalChunks = Infinity`). -/
def mergeUpload (st : ServerState) (uid fileName fileHash : String) :
    Option (MergeResult × ServerState) :=
  match assocLookup st.uploadStatus uid with
  | none => some (.notFound, st)
  | some s =>
    let st1 : ServerState := { st with tempDirs := ensureTempDir st.tempDirs uid }
    match jsLoopRange s.totalChunks with
    | none => none
    | some idxs =>
      let missingFiles := idxs.filter fun i => (assocLookup st1.tempFS (uid, i)).isNone
      if missingFiles.isEmpty then
        let finalFileName := fileHash ++ jsExtname fileName
        let outBytes := mergeChunksBytes st1 uid idxs
        let st2 : ServerState :=
          { st1 with uploadDir := assocUpdate st1.uploadDir finalFileName outBytes }
        let st3 : ServerState :=
          if st2.tempDirs.contains uid then
            { st2 with
                tempDirs := st2.tempDirs.erase uid,
                tempFS := st2.tempFS.filter fun kv => decide (kv.1.1 ≠ uid),
                uploadStatus := assocRemove st2.uploadStatus uid }
          else st2
        some (.merged finalFileName, st3)
      else
        some (.incomplete missingFiles, st1)

/-- The merge route when the output stream errors while chunk `k` of the
verified-complete sequence is being piped: `createWriteStream` has already
created (or truncated) the output file and chunks `0 … k-1` have been fully
drained into it, the stream is destroyed without unlinking the file (so the
partial output stays in `uploads/` under the final name), `mergeChunks`
rejects, and the route's catch branch answers 500 without touching the
staging directory or the registry entry. -/
def mergeUploadStreamError (st : ServerState) (uid fileName fileHash : String)
    (k : ℕ) : Option (MergeResult × ServerState) :=
  match assocLookup st.uploadStatus uid with
  | none => some (.notFound, st)
  | some s =>
    let st1 : ServerState := { st with tempDirs := ensureTempDir st.tempDirs uid }
    match jsLoopRange s.totalChunks with
    | none => none
    | some idxs =>
      let missingFiles := idxs.filter fun i => (assocLookup st1.tempFS (uid, i)).isNone
      if missingFiles.isEmpty then
        let finalFileName := fileHash ++ jsExtname fileName
        let writtenSoFar := mergeChunksBytes st1 uid (idxs.take k)
        some (.failed,
          { st1 with uploadDir := assocUpdate st1.uploadDir finalFileName writtenSoFar })
      else
        some (.incomplete missingFiles, st1)

/-! ### Coordinator operation sequences -/

/-- One inbound coordinator operation, for stating state invariants over
arbitrary request sequences. -/
inductive ServerOp : Type where
  | init (newId fileName : String) (fileSize chunkSize : ℤ) (fileHash : String) : ServerOp
  | receive (uid : String) (idx : ℤ) (b : Bytes) : ServerOp
  | merge (uid fileName fileHash : String) : ServerOp
  | progress (uid : String) : ServerOp
  | cancel (uid : String) : ServerOp
deriving DecidableEq

/-- Apply one operation to the server state, discarding the response.  A
merge whose verification loop diverges (`totalChunks = Infinity`) never
produces a successor state; we keep the pre-state, which is sound for state
invariants since no observable successor exists. -/
def applyOp (st : ServerState) : ServerOp → ServerState
  | .init newId fn fsz csz fh => (initUpload st newId fn fsz csz fh).2
  | .receive uid idx b => (receiveChunk st uid idx b).2
  | .merge uid fn fh =>
    match mergeUpload st uid fn fh with
    | some (_, st') => st'
    | none => st
  | .progress _ => st
  | .cancel uid => handleRequestCancel st uid

/-- Apply a sequence of operations left to right. -/
def applyOps (st : ServerState) (ops : List ServerOp) : ServerState :=
  ops.foldl applyOp st

/-- Upload the chunks listed in `order` (chunk `i` carrying content `f i`)
one after the other through the chunk route. -/
def applyReceives (st : ServerState) (uid : String) (f : ℤ → Bytes)
    (order : List ℤ) : ServerState :=
  order.foldl (fun st' i => (receiveChunk st' uid i (f i)).2) st

/-! ### Client chunk scheduler (`BigFileUploader`)

The scheduler state captures the fields of the `BigFileUploader` class that
drive concurrency, pause/resume and cancellation.  In the source, each
`_uploadChunk` call stores a fresh `AbortController` into the single shared
field `this.abortController`, overwriting the controller of any transfer
dispatched earlier; `pause()` aborts only whatever controller that field
currently holds.  Controllers are modelled as consecutive numeric tokens, a
transfer in flight is the pair (chunk index, its controller token), and the
set of aborted tokens is recorded so a completion can be classified as
`AbortError` or not. -/

structure ClientState : Type where
  concurrent : ℕ
  chunkCount : ℕ
  uploadedChunks : List ℕ
  inFlight : List (ℕ × ℕ)
  activeConnections : ℕ
  paused : Bool
  abortCtrl : Option ℕ
  nextCtrl : ℕ
  aborted : List ℕ
  errorReports : ℕ
deriving DecidableEq

/-- JS `x || d` for an optional numeric option: `undefined` and the falsy
number 0 both fall back to the default. -/
def jsOrDefault (o : Option ℕ) (d : ℕ) : ℕ :=
  match o with
  | none => d
  | some n => if n = 0 then d else n

/-- A freshly constructed uploader: `concurrent = options.concurrent || 3`,
`chunks` prepared from the file (we only keep their count), nothing uploaded,
nothing in flight, not paused, no controller yet. -/
def mkClient (concurrentOpt : Option ℕ) (chunkCount : ℕ) : ClientState :=
  { concurrent := jsOrDefault concurrentOpt 3,
    chunkCount := chunkCount,
    uploadedChunks := [],
    inFlight := [],
    activeConnections := 0,
    paused := false,
    abortCtrl := none,
    nextCtrl := 0,
    aborted := [],
    errorReports := 0 }

/-- Labels of the scheduler's atomic transitions (the synchronous blocks
between the `await` suspension points of `_uploadChunks`). -/
inductive ClientLabel : Type where
  | dispatch (c : ℕ) : ClientLabel
  | finishOk (c t : ℕ) : ClientLabel
  | finishAborted (c t : ℕ) : ClientLabel
  | finishError (c t : ℕ) : ClientLabel
  | pause : ClientLabel
  | resume : ClientLabel
deriving DecidableEq

/-- The state after `pause()`: set the flag that stops scheduling and abort
the controller currently stored in the shared `abortController` field (only
that one). -/
def pauseClient (s : ClientState) : ClientState :=
  { s with
      paused := true,
      aborted :=
        match s.abortCtrl with
        | some t => t :: s.aborted
        | none => s.aborted }

/-- Small-step transitions of the scheduler.

* `dispatch`: a `_uploadChunks` loop iteration picks a not-yet-uploaded chunk
  while not paused and `activeConnections < concurrent`; it increments the
  counter, creates a fresh `AbortController` and stores it in the shared
  field.  (Two concurrently running loop bodies may even pick the same chunk;
  the model does not forbid re-dispatching a chunk already in flight.)
* `finishOk`: a non-aborted transfer resolves; the index is recorded unless
  already present (`includes` guard) and the counter is decremented.
* `finishAborted`: an aborted transfer rejects with `AbortError`; the catch
  branch logs and returns without calling `onError`.
* `finishError`: a non-aborted transfer fails; `onError` is invoked.
* `pause` and `resume` mirror `pause()` and re-entry through `start()`. -/
inductive ClientStep : ClientState → ClientLabel → ClientState → Prop where
  | dispatch (s : ClientState) (c : ℕ)
      (hp : s.paused = false)
      (hc : s.activeConnections < s.concurrent)
      (hlt : c < s.chunkCount)
      (hn : ¬ c ∈ s.uploadedChunks) :
      ClientStep s (.dispatch c)
        { s with
            activeConnections := s.activeConnections + 1,
            inFlight := (c, s.nextCtrl) :: s.inFlight,
            abortCtrl := some s.nextCtrl,
            nextCtrl := s.nextCtrl + 1 }
  | finishOk (s : ClientState) (c t : ℕ)
      (hm : (c, t) ∈ s.inFlight)
      (ha : ¬ t ∈ s.aborted) :
      ClientStep s (.finishOk c t)
        { s with
            inFlight := s.inFlight.erase (c, t),
            activeConnections := s.activeConnections - 1,
            uploadedChunks :=
              if s.uploadedChunks.contains c then s.uploadedChunks
              else s.uploadedChunks ++ [c] }
  | finishAborted (s : ClientState) (c t : ℕ)
      (hm : (c, t) ∈ s.inFlight)
      (ha : t ∈ s.aborted) :
      ClientStep s (.finishAborted c t)
        { s with
            inFlight := s.inFlight.erase (c, t),
            activeConnections := s.activeConnections - 1 }
  | finishError (s : ClientState) (c t : ℕ)
      (hm : (c, t) ∈ s.inFlight)
      (ha : ¬ t ∈ s.aborted) :
      ClientStep s (.finishError c t)
        { s with
            inFlight := s.inFlight.erase (c, t),
            activeConnections := s.activeConnections - 1,
            errorReports := s.errorReports + 1 }
  | pause (s : ClientState) :
      ClientStep s .pause (pauseClient s)
  | resume (s : ClientState)
      (hp : s.paused = true) :
      ClientStep s .resume { s with paused := false }

/-- A scheduler state is reachable from another by any sequence of steps. -/
def ClientReachable (s s' : ClientState) : Prop :=
  Relation.ReflTransGen (fun a b => ∃ l, ClientStep a l b) s s'

/-! ### Derived notions used by the statements -/

/-- The integer indices `0 … N-1`, i.e. the loop range for a session whose
`totalChunks` is the (nonnegative) integer `N`. -/
def idxRange (N : ℕ) : List ℤ :=
  (List.range N).map Int.ofNat

/-- Whether an index lies in `[0, totalChunks)`; no index is in range of a
NaN or infinite `totalChunks`. -/
def inRangeB (i : ℤ) : JSNum → Bool
  | .val n => decide (0 ≤ i) && decide (i < n)
  | _ => false

/-- The registry invariant claimed for one session: `uploadedChunks` has no
duplicates and every recorded index lies in `[0, totalChunks)`. -/
def sessionOkB (s : UploadSession) : Bool :=
  decide s.uploadedChunks.Nodup &&
    s.uploadedChunks.all fun i => inRangeB i s.totalChunks

/-- The registry invariant for the whole server state. -/
def registryInvariantB (st : ServerState) : Bool :=
  st.uploadStatus.all fun kv => sessionOkB kv.2

/-- An operation is in range when, if it is a chunk upload for a registered
session, its index lies in `[0, totalChunks)` of that session.  (This is the
well-behaved-client side condition under which the registry invariant is
preserved; the route itself never checks it.) -/
def okOp (st : ServerState) : ServerOp → Bool
  | .receive uid idx _ =>
    match assocLookup st.uploadStatus uid with
    | some s => inRangeB idx s.totalChunks
    | none => true
  | _ => true

/-- Every operation of the sequence is in range in the state where it is
applied. -/
def okOps : ServerState → List ServerOp → Bool
  | _, [] => true
  | st, op :: rest => okOp st op && okOps (applyOp st op) rest

/-- Replace the in-memory `uploadedChunks` list of a registered session,
leaving everything else (in particular the staging area on disk) unchanged.
Used to state that the merge route's completeness check does not depend on
the in-memory list. -/
def setUploadedChunks (st : ServerState) (uid : String) (uc : List ℤ) : ServerState :=
  match assocLookup st.uploadStatus uid with
  | none => st
  | some s =>
    { st with uploadStatus := assocUpdate st.uploadStatus uid { s with uploadedChunks := uc } }

/-- A concrete scheduler state with two transfers in flight: from a fresh
uploader over two chunks with the default-shaped window 3, chunk 0 was
dispatched (controller 0) and then chunk 1 (controller 1), so the shared
`abortController` field holds controller 1. -/
def clientTwoInFlight : ClientState :=
  { concurrent := 3,
    chunkCount := 2,
    uploadedChunks := [],
    inFlight := [(1, 1), (0, 0)],
    activeConnections := 2,
    paused := false,
    abortCtrl := some 1,
    nextCtrl := 2,
    aborted := [],
    errorReports := 0 }

/-- The intermediate state after only the first dispatch. -/
def clientOneInFlight : ClientState :=
  { concurrent := 3,
    chunkCount := 2,
    uploadedChunks := [],
    inFlight := [(0, 0)],
    activeConnections := 1,
    paused := false,
    abortCtrl := some 0,
    nextCtrl := 1,
    aborted := [],
    errorReports := 0 }

/-! ### Helper lemmas -/

theorem ensureTempDir_contains (dirs : List String) (uid : String) :
    (ensureTempDir dirs uid).contains uid = true := by
  unfold ensureTempDir
  cases h : dirs.contains uid
  · simp
  · simpa using h

theorem ensureTempDir_of_contains (dirs : List String) (uid : String)
    (h : dirs.contains uid = true) : ensureTempDir dirs uid = dirs := by
  have h' : uid ∈ dirs := by simpa using h
  simp [ensureTempDir, h']

theorem assocLookup_all {α β : Type} [DecidableEq α] (l : List (α × β))
    (p : α × β → Bool) (a : α) (b : β)
    (hall : l.all p = true) (hl : assocLookup l a = some b) : p (a, b) = true := by
  induction l with
  | nil => simp [assocLookup] at hl
  | cons kv rest ih =>
    obtain ⟨k, v⟩ := kv
    simp only [List.all_cons, Bool.and_eq_true] at hall
    by_cases hk : k = a
    · subst hk
      simp [assocLookup] at hl
      subst hl
      exact hall.1
    · simp [assocLookup, hk] at hl
      exact ih hall.2 hl

theorem all_assocUpdate {α β : Type} [DecidableEq α] (l : List (α × β))
    (p : α × β → Bool) (a : α) (b : β)
    (hall : l.all p = true) (hb : p (a, b) = true) :
    (assocUpdate l a b).all p = true := by
  induction l with
  | nil => simp [assocUpdate, hb]
  | cons kv rest ih =>
    obtain ⟨k, v⟩ := kv
    simp only [List.all_cons, Bool.and_eq_true] at hall
    by_cases hk : k = a
    · subst hk
      simp [assocUpdate, hb, hall.2]
    · simp [assocUpdate, hk, hall.1, ih hall.2]

theorem all_assocRemove {α β : Type} [DecidableEq α] (l : List (α × β))
    (p : α × β → Bool) (a : α)
    (hall : l.all p = true) : (assocRemove l a).all p = true := by
  induction l with
  | nil => simp [assocRemove]
  | cons kv rest ih =>
    obtain ⟨k, v⟩ := kv
    simp only [List.all_cons, Bool.and_eq_true] at hall
    by_cases hk : k = a
    · simp [assocRemove, hk, ih hall.2]
    · simp [assocRemove, hk, hall.1, ih hall.2]

theorem assocLookup_filter_key {α β : Type} [DecidableEq α] (l : List (α × β))
    (p : α → Bool) (a : α) :
    assocLookup (l.filter fun kv => p kv.1) a =
      if p a then assocLookup l a else none := by
  induction l with
  | nil => simp [assocLookup]
  | cons kv rest ih =>
    obtain ⟨k, v⟩ := kv
    by_cases hp : p k = true
    · by_cases hk : k = a
      · subst hk
        simp [List.filter_cons, hp, assocLookup, ih]
      · simp [List.filter_cons, hp, assocLookup, hk, ih]
    · by_cases hk : k = a
      · subst hk
        simp only [Bool.not_eq_true] at hp
        simp [List.filter_cons, hp, assocLookup, ih]
      · simp only [Bool.not_eq_true] at hp
        simp [List.filter_cons, hp, assocLookup, hk, ih]

theorem filter_eq_single {α : Type} [DecidableEq α] (l : List α) (p : α → Bool) (j : α)
    (hnd : l.Nodup) (hj : j ∈ l) (hpj : p j = true)
    (hother : ∀ i ∈ l, i ≠ j → p i = false) : l.filter p = [j] := by
  induction l with
  | nil => simp at hj
  | cons a rest ih =>
    rcases List.mem_cons.mp hj with rfl | hj'
    · have hrest : rest.filter p = [] := by
        apply List.filter_eq_nil_iff.mpr
        intro x hx
        have hxj : x ≠ j := by
          rintro rfl
          exact (List.nodup_cons.mp hnd).1 hx
        simp [hother x (List.mem_cons_of_mem _ hx) hxj]
      simp [List.filter_cons, hpj, hrest]
    · have haj : a ≠ j := by
        rintro rfl
        exact (List.nodup_cons.mp hnd).1 hj'
      have hpa : p a = false := hother a (List.mem_cons_self a rest) haj
      simp [List.filter_cons, hpa]
      exact ih (List.nodup_cons.mp hnd).2 hj'
        (fun i hi hij => hother i (List.mem_cons_of_mem _ hi) hij)

theorem sessionOk_length_le (s : UploadSession) (n : ℤ)
    (hok : sessionOkB s = true) (ht : s.totalChunks = .val n) :
    s.uploadedChunks.length ≤ n.toNat := by
  unfold sessionOkB at hok
  rw [Bool.and_eq_true, decide_eq_true_eq] at hok
  obtain ⟨hnd, hall⟩ := hok
  have hmem : ∀ i ∈ s.uploadedChunks, 0 ≤ i ∧ i < n := by
    intro i hi
    have := List.all_eq_true.mp hall i hi
    rw [ht] at this
    unfold inRangeB at this
    rw [Bool.and_eq_true, decide_eq_true_eq, decide_eq_true_eq] at this
    exact this
  have hmapnd : (s.uploadedChunks.map Int.toNat).Nodup := by
    apply hnd.map_on
    intro x hx y hy hxy
    have hx0 := (hmem x hx).1
    have hy0 := (hmem y hy).1
    omega
  have hsub : (s.uploadedChunks.map Int.toNat) ⊆ List.range n.toNat := by
    intro m hm
    obtain ⟨i, hi, rfl⟩ := List.mem_map.mp hm
    have := hmem i hi
    rw [List.mem_range]
    omega
  have := (hmapnd.subperm hsub).length_le
  simpa using this

/-! ### Claim theorems -/

/-- C10: for a session created by the init route with `declaredSize = 0`
(so `totalChunks = Math.ceil(0 / chunkSize) = 0`), the progress route's
percentage computation divides by `totalChunks` unguarded, so the reported
progress for an empty file is NaN rather than 0 or 100. -/
theorem getProgress_empty_file_is_nan (st : ServerState) (newId fn fh : String)
    (csz : ℤ) (hmiss : checkFileExists st fh = none) (hpos : 0 < csz) :
    getProgress (initUpload st newId fn 0 csz fh).2 newId =
      some (ProgressResult.ok JSNum.nan [] (JSNum.val 0) []) := by
  have hne : ¬ csz = 0 := by omega
  simp only [initUpload, hmiss]
  simp [getProgress, assocLookup_update_self, jsCeilDiv, hne, Int.zero_fdiv,
    jsLoopRange, jsProgress]

/-- Witness for `getProgress_empty_file_is_nan` at a concrete instance. -/
theorem getProgress_empty_file_is_nan_witness :
    checkFileExists emptyServerState "h" = none ∧ (0:ℤ) < 5 ∧
    getProgress (initUpload emptyServerState "u1" "f.txt" 0 5 "h").2 "u1" =
      some (ProgressResult.ok JSNum.nan [] (JSNum.val 0) []) :=
  ⟨by decide, by decide,
    getProgress_empty_file_is_nan emptyServerState "u1" "f.txt" "h" 5 (by decide) (by decide)⟩

/-- C3 counterexample: the claim says init fails with `InvalidRequest` and
creates no session whenever `chunkSize <= 0`; but at `chunkSize = -1` (and
`fileSize = 10`) the route performs no validation, answers with a fresh
upload id, and registers a session. -/
theorem initUpload_invalid_params_still_creates_session :
    (initUpload emptyServerState "u1" "a.txt" 10 (-1) "h").1 = InitResult.created "u1" ∧
    (assocLookup (initUpload emptyServerState "u1" "a.txt" 10 (-1) "h").2.uploadStatus
      "u1").isSome = true := by
  decide

/-- C3 amended: the init route performs no validation of `chunkSize` or
`fileSize`: even for `chunkSize <= 0` or `fileSize < 0` (with no dedup hit)
it answers `created` and registers a session with
`totalChunks = Math.ceil(fileSize / chunkSize)` and provisions the staging
directory; it never fails with an `InvalidRequest`-style error. -/
theorem initUpload_never_validates_params (st : ServerState) (newId fn : String)
    (fsz csz : ℤ) (fh : String)
    (hmiss : checkFileExists st fh = none)
    (_hbad : csz ≤ 0 ∨ fsz < 0) :
    (initUpload st newId fn fsz csz fh).1 = InitResult.created newId ∧
    assocLookup (initUpload st newId fn fsz csz fh).2.uploadStatus newId =
      some { fileName := fn, fileSize := fsz, chunkSize := csz, fileHash := fh,
             totalChunks := jsCeilDiv fsz csz, uploadedChunks := [] } ∧
    (initUpload st newId fn fsz csz fh).2.tempDirs.contains newId = true := by
  simp only [initUpload, hmiss]
  exact ⟨trivial, assocLookup_update_self _ _ _, ensureTempDir_contains _ _⟩

/-- Witness for `initUpload_never_validates_params` at `chunkSize = -1`. -/
theorem initUpload_never_validates_params_witness :
    checkFileExists emptyServerState "h" = none ∧ ((-1:ℤ) ≤ 0 ∨ (10:ℤ) < 0) ∧
    ((initUpload emptyServerState "u1" "a.txt" 10 (-1) "h").1 = InitResult.created "u1" ∧
     assocLookup (initUpload emptyServerState "u1" "a.txt" 10 (-1) "h").2.uploadStatus "u1" =
       some { fileName := "a.txt", fileSize := 10, chunkSize := -1, fileHash := "h",
              totalChunks := jsCeilDiv 10 (-1), uploadedChunks := [] } ∧
     (initUpload emptyServerState "u1" "a.txt" 10 (-1) "h").2.tempDirs.contains "u1" = true) :=
  ⟨by decide, Or.inl (by decide),
    initUpload_never_validates_params emptyServerState "u1" "a.txt" 10 (-1) "h"
      (by decide) (Or.inl (by decide))⟩

/-- C5: when the archive directory already holds a file for the content hash
(any file whose name starts with the hash, e.g. the `hash + extension` name a
prior successful merge produces), the init route returns that existing file's
path and the server state is completely unchanged: no session record and no
staging directory are created. -/
theorem initUpload_dedup_hit_returns_existing_path (st : ServerState)
    (newId fn : String) (fsz csz : ℤ) (fh : String)
    (hhit : (st.uploadDir.any fun kv => jsStartsWith kv.1 fh) = true) :
    (initUpload st newId fn fsz csz fh).2 = st ∧
    ∃ p, (initUpload st newId fn fsz csz fh).1 = InitResult.dedupHit p ∧
      jsStartsWith p fh = true := by
  have h1 : (st.uploadDir.find? fun kv => jsStartsWith kv.1 fh).isSome := by
    rw [List.find?_isSome]
    simpa using hhit
  obtain ⟨kv, hkv⟩ := Option.isSome_iff_exists.mp h1
  have hp' := List.find?_some hkv
  have hp : jsStartsWith kv.1 fh = true := by simpa using hp'
  have hcheck : checkFileExists st fh = some kv.1 := by
    unfold checkFileExists
    rw [hkv]
    rfl
  refine ⟨by simp [initUpload, hcheck], kv.1, by simp [initUpload, hcheck], hp⟩

/-- Witness for `initUpload_dedup_hit_returns_existing_path`: an archive that
already holds `h.txt` for hash `h`. -/
theorem initUpload_dedup_hit_returns_existing_path_witness :
    ((⟨[], [], [], [("h.txt", [1, 2, 3])]⟩ : ServerState).uploadDir.any
      fun kv => jsStartsWith kv.1 "h") = true ∧
    ((initUpload (⟨[], [], [], [("h.txt", [1, 2, 3])]⟩ : ServerState) "u2" "b.txt" 10 5 "h").2 =
      (⟨[], [], [], [("h.txt", [1, 2, 3])]⟩ : ServerState) ∧
     ∃ p, (initUpload (⟨[], [], [], [("h.txt", [1, 2, 3])]⟩ : ServerState)
        "u2" "b.txt" 10 5 "h").1 = InitResult.dedupHit p ∧ jsStartsWith p "h" = true) :=
  ⟨by decide,
    initUpload_dedup_hit_returns_existing_path
      (⟨[], [], [], [("h.txt", [1, 2, 3])]⟩ : ServerState) "u2" "b.txt" 10 5 "h" (by decide)⟩

/-- C6 counterexample: the claim says a server-side cancel during a chunk
transfer removes only that chunk's partial data, leaving sibling chunks and
the session record intact.  In this concrete run, chunks 0 and 1 are staged,
then `handleRequestCancel` fires for the session: the staged sibling chunk 0
is deleted together with the whole staging directory, and the session's
registry record is deleted as well. -/
theorem cancel_mid_chunk_removes_siblings_and_record :
    (let st := applyOps emptyServerState
      [ServerOp.init "u1" "f.txt" 10 5 "h", ServerOp.receive "u1" 0 [1],
       ServerOp.receive "u1" 1 [2]]
     assocLookup st.tempFS ("u1", 0) = some [1] ∧
     assocLookup (handleRequestCancel st "u1").tempFS ("u1", 0) = none ∧
     assocLookup (handleRequestCancel st "u1").uploadStatus "u1" = none) := by
  decide

/-- C6 amended: when a chunk request is cancelled mid-flight for a session
that is registered, `handleRequestCancel` removes the in-flight chunk's
partial temp file and the session's entire staging directory (all staged
sibling chunks) and deletes the session's registry record — only other
sessions' records and staged chunks are left untouched. -/
theorem cancel_mid_chunk_wipes_whole_session (st : ServerState) (uid : String)
    (s : UploadSession) (hs : assocLookup st.uploadStatus uid = some s) :
    assocLookup (handleRequestCancel st uid).uploadStatus uid = none ∧
    (∀ i : ℤ, assocLookup (handleRequestCancel st uid).tempFS (uid, i) = none) ∧
    (handleRequestCancel st uid).tempDirs = st.tempDirs.erase uid ∧
    (∀ uid', uid' ≠ uid →
      assocLookup (handleRequestCancel st uid).uploadStatus uid' =
        assocLookup st.uploadStatus uid') ∧
    (∀ (uid' : String) (i : ℤ), uid' ≠ uid →
      assocLookup (handleRequestCancel st uid).tempFS (uid', i) =
        assocLookup st.tempFS (uid', i)) := by
  unfold handleRequestCancel
  rw [hs]
  refine ⟨assocLookup_remove_self _ _, ?_, rfl, ?_, ?_⟩
  · intro i
    have := assocLookup_filter_key st.tempFS (fun k => decide (k.1 ≠ uid)) (uid, i)
    simpa using this
  · intro uid' h
    exact assocLookup_remove_ne _ _ _ (Ne.symm h)
  · intro uid' i h
    have := assocLookup_filter_key st.tempFS (fun k => decide (k.1 ≠ uid)) (uid', i)
    simpa [h] using this

/-- Witness for `cancel_mid_chunk_wipes_whole_session` on the concrete
two-chunk session. -/
theorem cancel_mid_chunk_wipes_whole_session_witness :
    (let st := applyOps emptyServerState
      [ServerOp.init "u1" "f.txt" 10 5 "h", ServerOp.receive "u1" 0 [1],
       ServerOp.receive "u1" 1 [2]]
     (assocLookup st.uploadStatus "u1").isSome = true ∧
     assocLookup (handleRequestCancel st "u1").uploadStatus "u1" = none ∧
     assocLookup (handleRequestCancel st "u1").tempFS ("u1", 1) = none) := by
  have h := cancel_mid_chunk_wipes_whole_session
    (applyOps emptyServerState
      [ServerOp.init "u1" "f.txt" 10 5 "h", ServerOp.receive "u1" 0 [1],
       ServerOp.receive "u1" 1 [2]]) "u1"
    { fileName := "f.txt", fileSize := 10, chunkSize := 5, fileHash := "h",
      totalChunks := JSNum.val 2, uploadedChunks := [0, 1] } (by decide)
  exact ⟨by decide, h.1, h.2.1 1⟩

theorem registryInvariantB_of_remove (st : ServerState) (uid : String)
    (hinv : registryInvariantB st = true) :
    (assocRemove st.uploadStatus uid).all (fun kv => sessionOkB kv.2) = true :=
  all_assocRemove _ _ _ hinv

theorem mergeUpload_uploadStatus (st : ServerState) (uid fn fh : String)
    (r : MergeResult) (st' : ServerState)
    (h : mergeUpload st uid fn fh = some (r, st')) :
    st'.uploadStatus = st.uploadStatus ∨
      st'.uploadStatus = assocRemove st.uploadStatus uid := by
  unfold mergeUpload at h
  cases hlk : assocLookup st.uploadStatus uid with
  | none =>
    rw [hlk] at h
    simp at h
    left
    rw [← h.2]
  | some s =>
    rw [hlk] at h
    cases hr : jsLoopRange s.totalChunks with
    | none => simp [hr] at h
    | some idxs =>
      simp only [hr] at h
      by_cases hm : (idxs.filter fun i =>
          (assocLookup st.tempFS (uid, i)).isNone).isEmpty = true
      · simp only [hm, if_true] at h
        by_cases hc : ({ st with tempDirs := ensureTempDir st.tempDirs uid
            } : ServerState).tempDirs.contains uid = true
        · simp only [hc, if_true] at h
          right
          have := (Prod.mk.injEq _ _ _ _).mp (Option.some.injEq _ _ ▸ h)
          cases h
          rfl
        · simp only [hc] at h
          cases h
          left
          rfl
      · simp only [hm] at h
        cases h
        left
        rfl

theorem applyOp_registryInvariant (st : ServerState) (op : ServerOp)
    (hinv : registryInvariantB st = true) (hok : okOp st op = true) :
    registryInvariantB (applyOp st op) = true := by
  cases op with
  | init newId fn fsz csz fh =>
    simp only [applyOp, initUpload]
    split
    · exact hinv
    · unfold registryInvariantB at hinv ⊢
      refine all_assocUpdate _ _ _ _ hinv ?_
      simp [sessionOkB]
  | receive uid idx b =>
    simp only [applyOp, receiveChunk]
    split
    · exact hinv
    · next s hlk =>
      split
      · next hd =>
        unfold registryInvariantB at hinv ⊢
        refine all_assocUpdate _ _ _ _ hinv ?_
        have hsOk : sessionOkB s = true := assocLookup_all _ _ _ _ hinv hlk
        have hidx : inRangeB idx s.totalChunks = true := by
          simp only [okOp, hlk] at hok
          exact hok
        unfold sessionOkB at hsOk ⊢
        rw [Bool.and_eq_true, decide_eq_true_eq] at hsOk
        obtain ⟨hnd, hall⟩ := hsOk
        by_cases hmem : s.uploadedChunks.contains idx = true
        · simp only [hmem, if_true]
          rw [Bool.and_eq_true, decide_eq_true_eq]
          exact ⟨hnd, hall⟩
        · have hnotmem : ¬ idx ∈ s.uploadedChunks := by
            simpa using hmem
          have hcond :
              (if s.uploadedChunks.contains idx = true then s.uploadedChunks
               else s.uploadedChunks ++ [idx]) = s.uploadedChunks ++ [idx] := by
            simp [hnotmem]
          rw [hcond, Bool.and_eq_true, decide_eq_true_eq]
          constructor
          · simp [List.nodup_append, hnd, hnotmem]
          · rw [List.all_append]
            simp only [Bool.and_eq_true]
            exact ⟨hall, by simpa using hidx⟩
      · simp only [handleRequestCancel]
        split
        · exact hinv
        · exact registryInvariantB_of_remove st uid hinv
  | merge uid fn fh =>
    simp only [applyOp]
    split
    · next res st' hm =>
      rcases mergeUpload_uploadStatus st uid fn fh res st' hm with hsame | hrem
      · unfold registryInvariantB at hinv ⊢
        rw [hsame]
        exact hinv
      · unfold registryInvariantB at hinv ⊢
        rw [hrem]
        exact registryInvariantB_of_remove st uid hinv
    · exact hinv
  | progress uid => exact hinv
  | cancel uid =>
    simp only [applyOp, handleRequestCancel]
    split
    · exact hinv
    · exact registryInvariantB_of_remove st uid hinv

theorem applyOps_registryInvariant (ops : List ServerOp) (st : ServerState)
    (hinv : registryInvariantB st = true) (hops : okOps st ops = true) :
    registryInvariantB (applyOps st ops) = true := by
  induction ops generalizing st with
  | nil => simpa [applyOps] using hinv
  | cons op rest ih =>
    simp only [okOps, Bool.and_eq_true] at hops
    have h1 := applyOp_registryInvariant st op hinv hops.1
    have h2 := ih (applyOp st op) h1 hops.2
    simpa [applyOps] using h2

/-- C2 counterexample: the claim says `uploadedChunkIndices` always stays a
subset of `[0, totalChunks)` for every index argument the chunk route
accepts.  But the route never checks the index: on a freshly created
2-chunk session, uploading chunk index 5 is accepted and recorded, so the
registry holds `uploadedChunks = [5]` with `totalChunks = 2` and
`5 < 2` is false. -/
theorem receiveChunk_records_out_of_range_index :
    (assocLookup (applyOps emptyServerState
      [ServerOp.init "u1" "a.txt" 10 5 "h", ServerOp.receive "u1" 5 [9]]).uploadStatus
      "u1").map (fun s => (s.totalChunks, s.uploadedChunks)) =
      some (JSNum.val 2, [5]) ∧ ¬ ((5:ℤ) < 2) := by
  decide

/-- C2 amended: the subset invariant holds only for well-behaved request
sequences: starting from a state whose registry satisfies the invariant, any
sequence of coordinator operations in which every accepted chunk upload uses
an index inside `[0, totalChunks)` of its session preserves the invariant
(`uploadedChunks` duplicate-free and inside the range), and in particular
every session with integer `totalChunks = n` has at most `n.toNat` recorded
indices.  (The route itself enforces no bound, see the counterexample.) -/
theorem registry_invariant_of_in_range_ops (st : ServerState) (ops : List ServerOp)
    (hinv : registryInvariantB st = true) (hops : okOps st ops = true) :
    registryInvariantB (applyOps st ops) = true ∧
    (∀ (uid : String) (s : UploadSession) (n : ℤ),
      assocLookup (applyOps st ops).uploadStatus uid = some s →
      s.totalChunks = JSNum.val n →
      s.uploadedChunks.length ≤ n.toNat) := by
  have hfin := applyOps_registryInvariant ops st hinv hops
  refine ⟨hfin, ?_⟩
  intro uid s n hlk ht
  have hsOk : sessionOkB s = true := assocLookup_all _ _ _ _ hfin hlk
  exact sessionOk_length_le s n hsOk ht

/-- Witness for `registry_invariant_of_in_range_ops`: a session of two
chunks receiving indices 0, 0 (duplicate) and 1. -/
theorem registry_invariant_of_in_range_ops_witness :
    registryInvariantB emptyServerState = true ∧
    okOps emptyServerState
      [ServerOp.init "u1" "a.txt" 10 5 "h", ServerOp.receive "u1" 0 [1],
       ServerOp.receive "u1" 0 [2], ServerOp.receive "u1" 1 [3]] = true ∧
    registryInvariantB (applyOps emptyServerState
      [ServerOp.init "u1" "a.txt" 10 5 "h", ServerOp.receive "u1" 0 [1],
       ServerOp.receive "u1" 0 [2], ServerOp.receive "u1" 1 [3]]) = true ∧
    ({ fileName := "a.txt", fileSize := 10, chunkSize := 5, fileHash := "h",
       totalChunks := JSNum.val 2, uploadedChunks := [0, 1] } :
        UploadSession).uploadedChunks.length ≤ (2:ℤ).toNat :=
  ⟨by decide, by decide,
    (registry_invariant_of_in_range_ops emptyServerState
      [ServerOp.init "u1" "a.txt" 10 5 "h", ServerOp.receive "u1" 0 [1],
       ServerOp.receive "u1" 0 [2], ServerOp.receive "u1" 1 [3]]
      (by decide) (by decide)).1,
    (registry_invariant_of_in_range_ops emptyServerState
      [ServerOp.init "u1" "a.txt" 10 5 "h", ServerOp.receive "u1" 0 [1],
       ServerOp.receive "u1" 0 [2], ServerOp.receive "u1" 1 [3]]
      (by decide) (by decide)).2 "u1"
      { fileName := "a.txt", fileSize := 10, chunkSize := 5, fileHash := "h",
        totalChunks := JSNum.val 2, uploadedChunks := [0, 1] } 2
      (by decide) (by decide)⟩

theorem idxRange_nodup (N : ℕ) : (idxRange N).Nodup := by
  unfold idxRange
  refine (List.nodup_range N).map_on ?_
  intro x _ y _ h
  exact Int.ofNat.inj h

theorem receiveChunk_ok_spec (st : ServerState) (uid : String) (idx : ℤ) (b : Bytes)
    (s : UploadSession) (hs : assocLookup st.uploadStatus uid = some s)
    (hd : st.tempDirs.contains uid = true) :
    (receiveChunk st uid idx b).2.uploadStatus =
      assocUpdate st.uploadStatus uid
        { s with uploadedChunks :=
            if s.uploadedChunks.contains idx then s.uploadedChunks
            else s.uploadedChunks ++ [idx] } ∧
    (receiveChunk st uid idx b).2.tempDirs = st.tempDirs ∧
    (receiveChunk st uid idx b).2.tempFS = assocUpdate st.tempFS (uid, idx) b ∧
    (receiveChunk st uid idx b).2.uploadDir = st.uploadDir := by
  simp only [receiveChunk, hs, hd, if_true]
  exact ⟨trivial, trivial, trivial, trivial⟩

theorem applyReceives_spec (order : List ℤ) (st : ServerState) (uid : String)
    (f : ℤ → Bytes) (s : UploadSession)
    (hs : assocLookup st.uploadStatus uid = some s)
    (hd : st.tempDirs.contains uid = true) :
    (∃ uc, assocLookup (applyReceives st uid f order).uploadStatus uid =
        some { s with uploadedChunks := uc }) ∧
    (applyReceives st uid f order).tempDirs = st.tempDirs ∧
    (applyReceives st uid f order).uploadDir = st.uploadDir ∧
    (∀ j : ℤ, assocLookup (applyReceives st uid f order).tempFS (uid, j) =
        if order.contains j then some (f j)
        else assocLookup st.tempFS (uid, j)) := by
  induction order generalizing st s with
  | nil =>
    refine ⟨⟨s.uploadedChunks, ?_⟩, rfl, rfl, ?_⟩
    · simpa [applyReceives] using hs
    · intro j
      simp [applyReceives, assocLookup]
  | cons i rest ih =>
    obtain ⟨hst, htd, htf, hud⟩ := receiveChunk_ok_spec st uid i (f i) s hs hd
    have hstep : applyReceives st uid f (i :: rest) =
        applyReceives (receiveChunk st uid i (f i)).2 uid f rest := rfl
    have hs1 : assocLookup (receiveChunk st uid i (f i)).2.uploadStatus uid =
        some { s with uploadedChunks :=
          if s.uploadedChunks.contains i then s.uploadedChunks
          else s.uploadedChunks ++ [i] } := by
      rw [hst]
      exact assocLookup_update_self _ _ _
    have hd1 : (receiveChunk st uid i (f i)).2.tempDirs.contains uid = true := by
      rw [htd]
      exact hd
    obtain ⟨⟨uc, hluc⟩, h2, h3, h4⟩ := ih (receiveChunk st uid i (f i)).2 _ hs1 hd1
    rw [hstep]
    refine ⟨⟨uc, hluc⟩, by rw [h2, htd], by rw [h3, hud], ?_⟩
    intro j
    rw [h4 j, htf]
    by_cases hjr : j ∈ rest
    · simp [hjr]
    · by_cases hji : j = i
      · subst hji
        simp [hjr, assocLookup_update_self]
      · have hkey : ((uid, i) : String × ℤ) ≠ (uid, j) :=
          fun hco => hji (congrArg Prod.snd hco).symm
        rw [assocLookup_update_ne _ _ _ _ hkey]
        simp [hjr, hji]

theorem mergeChunksBytes_eq (st : ServerState) (uid : String) (idxs : List ℤ)
    (f : ℤ → Bytes)
    (h : ∀ i ∈ idxs, assocLookup st.tempFS (uid, i) = some (f i)) :
    mergeChunksBytes st uid idxs = (idxs.map f).flatten := by
  unfold mergeChunksBytes
  congr 1
  apply List.map_congr_left
  intro i hi
  rw [h i hi]
  rfl

theorem jsLoopRange_val (N : ℕ) :
    jsLoopRange (JSNum.val (N : ℤ)) = some (idxRange N) := by
  simp [jsLoopRange, idxRange]

theorem mergeUpload_complete (st : ServerState) (uid fn fh : String)
    (s : UploadSession) (N : ℕ)
    (hs : assocLookup st.uploadStatus uid = some s)
    (ht : s.totalChunks = JSNum.val (N : ℤ))
    (hall : ∀ j ∈ idxRange N, (assocLookup st.tempFS (uid, j)).isSome = true) :
    (mergeUpload st uid fn fh).map
        (fun r => (r.1, assocLookup r.2.uploadDir (fh ++ jsExtname fn))) =
      some (MergeResult.merged (fh ++ jsExtname fn),
        some (mergeChunksBytes st uid (idxRange N))) := by
  have hrange : jsLoopRange s.totalChunks = some (idxRange N) := by
    rw [ht]
    exact jsLoopRange_val N
  have hfil : (idxRange N).filter
      (fun i => (assocLookup st.tempFS (uid, i)).isNone) = [] := by
    apply List.filter_eq_nil_iff.mpr
    intro i hi
    have h := hall i hi
    cases hlk : assocLookup st.tempFS (uid, i) with
    | none =>
      rw [hlk] at h
      simp at h
    | some v => simp [hlk]
  have hcont : uid ∈ ensureTempDir st.tempDirs uid := by
    simpa using ensureTempDir_contains st.tempDirs uid
  simp only [mergeUpload, hs, hrange]
  simp [hfil, hcont, assocLookup_update_self, mergeChunksBytes]

theorem mergeUpload_incomplete_of (st : ServerState) (uid fn fh : String)
    (s : UploadSession) (N : ℕ) (j : ℤ)
    (hs : assocLookup st.uploadStatus uid = some s)
    (ht : s.totalChunks = JSNum.val (N : ℤ))
    (hj : j ∈ idxRange N)
    (habs : assocLookup st.tempFS (uid, j) = none)
    (hrest : ∀ i ∈ idxRange N, i ≠ j →
      (assocLookup st.tempFS (uid, i)).isSome = true) :
    mergeUpload st uid fn fh =
      some (MergeResult.incomplete [j],
        { st with tempDirs := ensureTempDir st.tempDirs uid }) := by
  have hrange : jsLoopRange s.totalChunks = some (idxRange N) := by
    rw [ht]
    exact jsLoopRange_val N
  have hfil : (idxRange N).filter
      (fun i => (assocLookup st.tempFS (uid, i)).isNone) = [j] := by
    apply filter_eq_single _ _ j (idxRange_nodup N) hj
    · simp [habs]
    · intro i hi hij
      have h := hrest i hi hij
      cases hlk : assocLookup st.tempFS (uid, i) with
      | none =>
        rw [hlk] at h
        simp at h
      | some v => simp [hlk]
  simp only [mergeUpload, hs, hrange]
  simp [hfil]

/-- C1: for a session whose staging area holds the chunk files `0 …
totalChunks-1` (uploaded through the chunk route in any order `order`
covering all indices, chunk `i` carrying bytes `f i`), the merge route
succeeds and the archived file's bytes are exactly the concatenation
`f 0 ++ f 1 ++ … ++ f (N-1)` in index order, independent of the upload
order. -/
theorem merge_concatenates_chunks_in_index_order (st : ServerState)
    (uid fn fh : String) (s : UploadSession) (N : ℕ) (f : ℤ → Bytes)
    (order : List ℤ)
    (hs : assocLookup st.uploadStatus uid = some s)
    (ht : s.totalChunks = JSNum.val (N : ℤ))
    (hd : st.tempDirs.contains uid = true)
    (hcov : ∀ j ∈ idxRange N, j ∈ order) :
    (mergeUpload (applyReceives st uid f order) uid fn fh).map
        (fun r => (r.1, assocLookup r.2.uploadDir (fh ++ jsExtname fn))) =
      some (MergeResult.merged (fh ++ jsExtname fn),
        some (((idxRange N).map f).flatten)) := by
  obtain ⟨⟨uc, hluc⟩, htd, hud, htf⟩ := applyReceives_spec order st uid f s hs hd
  have hsome : ∀ j ∈ idxRange N,
      assocLookup (applyReceives st uid f order).tempFS (uid, j) = some (f j) := by
    intro j hj
    rw [htf j]
    simp [hcov j hj]
  have hall : ∀ j ∈ idxRange N,
      (assocLookup (applyReceives st uid f order).tempFS (uid, j)).isSome = true := by
    intro j hj
    rw [hsome j hj]
    rfl
  have hmc := mergeUpload_complete (applyReceives st uid f order) uid fn fh
    { s with uploadedChunks := uc } N hluc ht hall
  rw [hmc, mergeChunksBytes_eq (applyReceives st uid f order) uid (idxRange N) f hsome]

/-- Witness for `merge_concatenates_chunks_in_index_order`: two chunks
uploaded in the order `[1, 0]` merge to chunk 0's bytes followed by chunk
1's bytes. -/
theorem merge_concatenates_chunks_in_index_order_witness :
    assocLookup (initUpload emptyServerState "u1" "a.txt" 10 5 "h").2.uploadStatus "u1" =
      some { fileName := "a.txt", fileSize := 10, chunkSize := 5, fileHash := "h",
             totalChunks := JSNum.val 2, uploadedChunks := [] } ∧
    ({ fileName := "a.txt", fileSize := 10, chunkSize := 5, fileHash := "h",
       totalChunks := JSNum.val 2, uploadedChunks := [] } :
        UploadSession).totalChunks = JSNum.val ((2:ℕ) : ℤ) ∧
    (initUpload emptyServerState "u1" "a.txt" 10 5 "h").2.tempDirs.contains "u1" = true ∧
    (∀ j ∈ idxRange 2, j ∈ ([1, 0] : List ℤ)) ∧
    (mergeUpload (applyReceives (initUpload emptyServerState "u1" "a.txt" 10 5 "h").2 "u1"
        (fun i => if i = 0 then [10, 20] else [30]) [1, 0]) "u1" "a.txt" "h").map
        (fun r => (r.1, assocLookup r.2.uploadDir ("h" ++ jsExtname "a.txt"))) =
      some (MergeResult.merged ("h" ++ jsExtname "a.txt"),
        some (((idxRange 2).map (fun i => if i = 0 then [10, 20] else [30])).flatten)) :=
  ⟨by decide, by decide, by decide, by decide,
    merge_concatenates_chunks_in_index_order
      (initUpload emptyServerState "u1" "a.txt" 10 5 "h").2 "u1" "a.txt" "h"
      { fileName := "a.txt", fileSize := 10, chunkSize := 5, fileHash := "h",
        totalChunks := JSNum.val 2, uploadedChunks := [] } 2
      (fun i => if i = 0 then [10, 20] else [30]) [1, 0]
      (by decide) (by decide) (by decide) (by decide)⟩

/-- C4: the merge route recomputes the missing-index set from the staging
area's files on disk (the in-memory `uploadedChunks` list of the session is
irrelevant: replacing it by any list gives the same answer) and, when
exactly the chunk file `j` is absent, fails with the missing list `[j]` and
leaves the state unchanged; after chunk `j` is uploaded, a second merge call
succeeds. -/
theorem merge_missing_recomputed_from_disk (st : ServerState)
    (uid fn fh : String) (s : UploadSession) (N : ℕ) (j : ℤ) (b : Bytes)
    (hs : assocLookup st.uploadStatus uid = some s)
    (ht : s.totalChunks = JSNum.val (N : ℤ))
    (hd : st.tempDirs.contains uid = true)
    (hj : j ∈ idxRange N)
    (habs : assocLookup st.tempFS (uid, j) = none)
    (hrest : ∀ i ∈ idxRange N, i ≠ j →
      (assocLookup st.tempFS (uid, i)).isSome = true) :
    mergeUpload st uid fn fh = some (MergeResult.incomplete [j], st) ∧
    (∀ uc : List ℤ,
      (mergeUpload (setUploadedChunks st uid uc) uid fn fh).map Prod.fst =
        some (MergeResult.incomplete [j])) ∧
    (mergeUpload (receiveChunk st uid j b).2 uid fn fh).map Prod.fst =
      some (MergeResult.merged (fh ++ jsExtname fn)) := by
  refine ⟨?_, ?_, ?_⟩
  · have h1 := mergeUpload_incomplete_of st uid fn fh s N j hs ht hj habs hrest
    rw [ensureTempDir_of_contains _ _ hd] at h1
    exact h1
  · intro uc
    have hsu : assocLookup (setUploadedChunks st uid uc).uploadStatus uid =
        some { s with uploadedChunks := uc } := by
      simp only [setUploadedChunks, hs]
      exact assocLookup_update_self _ _ _
    have htF : (setUploadedChunks st uid uc).tempFS = st.tempFS := by
      simp only [setUploadedChunks, hs]
    have habs' : assocLookup (setUploadedChunks st uid uc).tempFS (uid, j) = none := by
      rw [htF]
      exact habs
    have hrest' : ∀ i ∈ idxRange N, i ≠ j →
        (assocLookup (setUploadedChunks st uid uc).tempFS (uid, i)).isSome = true := by
      intro i hi hij
      rw [htF]
      exact hrest i hi hij
    have h1 := mergeUpload_incomplete_of (setUploadedChunks st uid uc) uid fn fh
      { s with uploadedChunks := uc } N j hsu ht hj habs' hrest'
    rw [h1]
    rfl
  · obtain ⟨hst, htd, htf, hud⟩ := receiveChunk_ok_spec st uid j b s hs hd
    have hs2 : assocLookup (receiveChunk st uid j b).2.uploadStatus uid =
        some { s with uploadedChunks :=
          if s.uploadedChunks.contains j then s.uploadedChunks
          else s.uploadedChunks ++ [j] } := by
      rw [hst]
      exact assocLookup_update_self _ _ _
    have hall : ∀ i ∈ idxRange N,
        (assocLookup (receiveChunk st uid j b).2.tempFS (uid, i)).isSome = true := by
      intro i hi
      rw [htf]
      by_cases hij : i = j
      · subst hij
        rw [assocLookup_update_self]
        rfl
      · have hkey : ((uid, j) : String × ℤ) ≠ (uid, i) :=
          fun hco => hij (congrArg Prod.snd hco).symm
        rw [assocLookup_update_ne _ _ _ _ hkey]
        exact hrest i hi hij
    have hmc := mergeUpload_complete (receiveChunk st uid j b).2 uid fn fh _ N hs2 ht hall
    cases hx : mergeUpload (receiveChunk st uid j b).2 uid fn fh with
    | none =>
      rw [hx] at hmc
      simp at hmc
    | some r =>
      rw [hx] at hmc
      simp at hmc ⊢
      exact hmc.1

/-- Witness for `merge_missing_recomputed_from_disk`: a two-chunk session
with only chunk 0 staged; the merge fails with missing list `[1]`, and after
chunk 1 arrives a second merge succeeds. -/
theorem merge_missing_recomputed_from_disk_witness :
    (let st := applyReceives (initUpload emptyServerState "u1" "a.txt" 10 5 "h").2 "u1"
        (fun _ => [7]) [0]
     assocLookup st.uploadStatus "u1" =
        some { fileName := "a.txt", fileSize := 10, chunkSize := 5, fileHash := "h",
               totalChunks := JSNum.val 2, uploadedChunks := [0] } ∧
     st.tempDirs.contains "u1" = true ∧
     (1:ℤ) ∈ idxRange 2 ∧
     assocLookup st.tempFS ("u1", 1) = none ∧
     (mergeUpload st "u1" "a.txt" "h" = some (MergeResult.incomplete [1], st) ∧
      (mergeUpload (receiveChunk st "u1" 1 [9]).2 "u1" "a.txt" "h").map Prod.fst =
        some (MergeResult.merged ("h" ++ jsExtname "a.txt")))) := by
  have h := merge_missing_recomputed_from_disk
    (applyReceives (initUpload emptyServerState "u1" "a.txt" 10 5 "h").2 "u1"
      (fun _ => [7]) [0]) "u1" "a.txt" "h"
    { fileName := "a.txt", fileSize := 10, chunkSize := 5, fileHash := "h",
      totalChunks := JSNum.val 2, uploadedChunks := [0] } 2 1 [9]
    (by decide) (by decide) (by decide) (by decide) (by decide) (by decide)
  exact ⟨by decide, by decide, by decide, by decide, h.1, h.2.2⟩

/-- C9 counterexample: the claim says an output-stream failure during merge
discards the partially written output so no partial archive file remains
observable.  In this concrete run (two chunks `[1,2]` and `[3]` staged, the
stream failing after the first chunk), the merge answers 500 — but the
archive directory still holds the file `h.txt` with the partial content
`[1, 2]`, because `writeStream.destroy()` closes the stream without
unlinking the file. -/
theorem merge_stream_failure_leaves_partial_archive :
    (let st := applyReceives (initUpload emptyServerState "u1" "a.txt" 10 5 "h").2 "u1"
        (fun i => if i = 0 then [1, 2] else [3]) [0, 1]
     (mergeUploadStreamError st "u1" "a.txt" "h" 1).map
        (fun r => (r.1, assocLookup r.2.uploadDir "h.txt")) =
       some (MergeResult.failed, some [1, 2]) ∧
     ([1, 2] : Bytes) ≠ [1, 2, 3]) := by
  decide

/-- C9 amended: when the output stream fails while chunk `k` of a
verified-complete merge is being piped, the merge surfaces the error (500)
and leaves the registry entry, every staged chunk file and the staging
directory untouched (so the merge can be retried) — but the partially
written output, the concatenation of chunks `0 … k-1`, remains in the
archive directory under the final file name instead of being discarded. -/
theorem merge_stream_failure_spec (st : ServerState) (uid fn fh : String)
    (s : UploadSession) (N : ℕ) (k : ℕ)
    (hs : assocLookup st.uploadStatus uid = some s)
    (ht : s.totalChunks = JSNum.val (N : ℤ))
    (hd : st.tempDirs.contains uid = true)
    (hall : ∀ j ∈ idxRange N, (assocLookup st.tempFS (uid, j)).isSome = true) :
    (mergeUploadStreamError st uid fn fh k).map Prod.fst =
      some MergeResult.failed ∧
    (mergeUploadStreamError st uid fn fh k).map (fun r => r.2.uploadStatus) =
      some st.uploadStatus ∧
    (mergeUploadStreamError st uid fn fh k).map (fun r => r.2.tempFS) =
      some st.tempFS ∧
    (mergeUploadStreamError st uid fn fh k).map (fun r => r.2.tempDirs) =
      some st.tempDirs ∧
    (mergeUploadStreamError st uid fn fh k).map
        (fun r => assocLookup r.2.uploadDir (fh ++ jsExtname fn)) =
      some (some (mergeChunksBytes st uid ((idxRange N).take k))) := by
  have hrange : jsLoopRange s.totalChunks = some (idxRange N) := by
    rw [ht]
    exact jsLoopRange_val N
  have hfil : (idxRange N).filter
      (fun i => (assocLookup st.tempFS (uid, i)).isNone) = [] := by
    apply List.filter_eq_nil_iff.mpr
    intro i hi
    have h := hall i hi
    cases hlk : assocLookup st.tempFS (uid, i) with
    | none =>
      rw [hlk] at h
      simp at h
    | some v => simp [hlk]
  have hmain : mergeUploadStreamError st uid fn fh k =
      some (MergeResult.failed,
        { st with
            uploadDir := assocUpdate st.uploadDir (fh ++ jsExtname fn)
                (mergeChunksBytes st uid ((idxRange N).take k)) }) := by
    simp only [mergeUploadStreamError, hs, hrange]
    rw [ensureTempDir_of_contains _ _ hd]
    simp [hfil, mergeChunksBytes]
  rw [hmain]
  exact ⟨rfl, rfl, rfl, rfl, by simp [assocLookup_update_self]⟩

/-- Witness for `merge_stream_failure_spec` on the concrete two-chunk
session with a failure after the first chunk. -/
theorem merge_stream_failure_spec_witness :
    (let st := applyReceives (initUpload emptyServerState "u1" "a.txt" 10 5 "h").2 "u1"
        (fun i => if i = 0 then [1, 2] else [3]) [0, 1]
     (mergeUploadStreamError st "u1" "a.txt" "h" 1).map Prod.fst =
        some MergeResult.failed ∧
     (mergeUploadStreamError st "u1" "a.txt" "h" 1).map (fun r => r.2.tempFS) =
        some st.tempFS ∧
     (mergeUploadStreamError st "u1" "a.txt" "h" 1).map
        (fun r => assocLookup r.2.uploadDir ("h" ++ jsExtname "a.txt")) =
       some (some (mergeChunksBytes st "u1" ((idxRange 2).take 1)))) := by
  have h := merge_stream_failure_spec
    (applyReceives (initUpload emptyServerState "u1" "a.txt" 10 5 "h").2 "u1"
      (fun i => if i = 0 then [1, 2] else [3]) [0, 1]) "u1" "a.txt" "h"
    { fileName := "a.txt", fileSize := 10, chunkSize := 5, fileHash := "h",
      totalChunks := JSNum.val 2, uploadedChunks := [0, 1] } 2 1
    (by decide) (by decide) (by decide) (by decide)
  exact ⟨h.1, h.2.2.1, h.2.2.2.2⟩

/-- C8: in every state the scheduler can reach from a fresh uploader, the
number of chunk transfers in flight equals the `activeConnections` counter
and never exceeds the configured concurrency window
(`options.concurrent || 3`, so 3 by default); the bound is preserved across
dispatches, completions, pause and resume. -/
theorem scheduler_concurrency_bounded (concurrentOpt : Option ℕ) (n : ℕ)
    (s : ClientState) (h : ClientReachable (mkClient concurrentOpt n) s) :
    s.inFlight.length = s.activeConnections ∧
    s.activeConnections ≤ s.concurrent ∧
    s.concurrent = jsOrDefault concurrentOpt 3 := by
  induction h with
  | refl => exact ⟨rfl, Nat.zero_le _, rfl⟩
  | tail hr hstep ih =>
    obtain ⟨l, hs⟩ := hstep
    cases hs with
    | dispatch c hp hc hlt hn =>
      refine ⟨?_, hc, ih.2.2⟩
      simp [ih.1]
    | finishOk c t hm ha =>
      refine ⟨?_, le_trans (Nat.sub_le _ _) ih.2.1, ih.2.2⟩
      simp [List.length_erase_of_mem hm, ih.1]
    | finishAborted c t hm ha =>
      refine ⟨?_, le_trans (Nat.sub_le _ _) ih.2.1, ih.2.2⟩
      simp [List.length_erase_of_mem hm, ih.1]
    | finishError c t hm ha =>
      refine ⟨?_, le_trans (Nat.sub_le _ _) ih.2.1, ih.2.2⟩
      simp [List.length_erase_of_mem hm, ih.1]
    | pause => exact ih
    | resume hp => exact ih

/-- Witness for `scheduler_concurrency_bounded`: after one dispatch from a
fresh two-chunk uploader with window 2, one transfer is in flight, below the
bound. -/
theorem scheduler_concurrency_bounded_witness :
    ({ concurrent := 2, chunkCount := 5, uploadedChunks := [], inFlight := [(0, 0)],
       activeConnections := 1, paused := false, abortCtrl := some 0, nextCtrl := 1,
       aborted := [], errorReports := 0 } : ClientState).inFlight.length =
      ({ concurrent := 2, chunkCount := 5, uploadedChunks := [], inFlight := [(0, 0)],
         activeConnections := 1, paused := false, abortCtrl := some 0, nextCtrl := 1,
         aborted := [], errorReports := 0 } : ClientState).activeConnections ∧
    ({ concurrent := 2, chunkCount := 5, uploadedChunks := [], inFlight := [(0, 0)],
       activeConnections := 1, paused := false, abortCtrl := some 0, nextCtrl := 1,
       aborted := [], errorReports := 0 } : ClientState).activeConnections ≤
      ({ concurrent := 2, chunkCount := 5, uploadedChunks := [], inFlight := [(0, 0)],
         activeConnections := 1, paused := false, abortCtrl := some 0, nextCtrl := 1,
         aborted := [], errorReports := 0 } : ClientState).concurrent ∧
    ({ concurrent := 2, chunkCount := 5, uploadedChunks := [], inFlight := [(0, 0)],
       activeConnections := 1, paused := false, abortCtrl := some 0, nextCtrl := 1,
       aborted := [], errorReports := 0 } : ClientState).concurrent =
      jsOrDefault (some 2) 3 :=
  scheduler_concurrency_bounded (some 2) 5 _
    (Relation.ReflTransGen.tail Relation.ReflTransGen.refl
      ⟨ClientLabel.dispatch 0,
        ClientStep.dispatch (mkClient (some 2) 5) 0 rfl (by decide) (by decide)
          (by decide)⟩)

/-- C7 counterexample: the claim says `pause()` cancels every chunk transfer
currently in flight.  In this reachable run, chunks 0 and 1 are dispatched
(controllers 0 and 1; the shared `abortController` field now holds
controller 1, overwriting controller 0), then `pause()` fires: only
controller 1 is aborted, while the transfer of chunk 0 is still in flight
and not cancelled. -/
theorem pause_cancels_only_latest_transfer :
    ClientStep (mkClient (some 3) 2) (ClientLabel.dispatch 0) clientOneInFlight ∧
    ClientStep clientOneInFlight (ClientLabel.dispatch 1) clientTwoInFlight ∧
    ClientStep clientTwoInFlight ClientLabel.pause (pauseClient clientTwoInFlight) ∧
    (pauseClient clientTwoInFlight).paused = true ∧
    (0, 0) ∈ (pauseClient clientTwoInFlight).inFlight ∧
    ¬ 0 ∈ (pauseClient clientTwoInFlight).aborted := by
  refine ⟨?_, ?_, ?_, ?_, ?_, ?_⟩
  · exact ClientStep.dispatch (mkClient (some 3) 2) 0 rfl (by decide) (by decide)
      (by decide)
  · exact ClientStep.dispatch clientOneInFlight 1 rfl (by decide) (by decide)
      (by decide)
  · exact ClientStep.pause clientTwoInFlight
  · rfl
  · decide
  · decide

/-- C7 amended: `pause()` sets the flag that blocks every further dispatch
while it stays set, and aborts exactly the controller currently stored in the
shared `abortController` field — the most recently dispatched transfer, not
every transfer in flight — and a transfer that completes as aborted
(`AbortError`) is never reported through `onError`. -/
theorem pause_stops_scheduling_and_swallows_cancellation
    (s s' : ClientState) (c t : ℕ) :
    (pauseClient s).paused = true ∧
    (s.abortCtrl = some t → t ∈ (pauseClient s).aborted) ∧
    (s.paused = true → ¬ ClientStep s (ClientLabel.dispatch c) s') ∧
    (ClientStep s (ClientLabel.finishAborted c t) s' →
      s'.errorReports = s.errorReports) := by
  refine ⟨rfl, ?_, ?_, ?_⟩
  · intro h
    unfold pauseClient
    rw [h]
    exact List.mem_cons_self _ _
  · intro hp hstep
    have hp' : s.paused = false := by
      cases hstep
      assumption
    rw [hp] at hp'
    exact Bool.noConfusion hp'
  · intro hstep
    cases hstep
    rfl

/-- Witness for `pause_stops_scheduling_and_swallows_cancellation` on the
concrete two-in-flight state: pausing sets the flag, aborts controller 1, a
dispatch from the paused state is impossible, and completing the aborted
transfer reports no error. -/
theorem pause_stops_scheduling_and_swallows_cancellation_witness :
    (pauseClient clientTwoInFlight).paused = true ∧
    1 ∈ (pauseClient clientTwoInFlight).aborted ∧
    ¬ ClientStep (pauseClient clientTwoInFlight) (ClientLabel.dispatch 0)
        clientTwoInFlight ∧
    ({ pauseClient clientTwoInFlight with
        inFlight := (pauseClient clientTwoInFlight).inFlight.erase (1, 1),
        activeConnections :=
          (pauseClient clientTwoInFlight).activeConnections - 1 } :
      ClientState).errorReports = (pauseClient clientTwoInFlight).errorReports :=
  ⟨(pause_stops_scheduling_and_swallows_cancellation clientTwoInFlight
      clientTwoInFlight 0 1).1,
   (pause_stops_scheduling_and_swallows_cancellation clientTwoInFlight
      clientTwoInFlight 0 1).2.1 rfl,
   (pause_stops_scheduling_and_swallows_cancellation (pauseClient clientTwoInFlight)
      clientTwoInFlight 0 1).2.2.1 rfl,
   (pause_stops_scheduling_and_swallows_cancellation (pauseClient clientTwoInFlight)
      ({ pauseClient clientTwoInFlight with
          inFlight := (pauseClient clientTwoInFlight).inFlight.erase (1, 1),
          activeConnections :=
            (pauseClient clientTwoInFlight).activeConnections - 1 } :
        ClientState) 1 1).2.2.2
     (ClientStep.finishAborted (pauseClient clientTwoInFlight) 1 1 (by decide)
       (by decide))⟩
